import Mathlib

/-!
Shallow embedding of the tui-logger capture/ring-buffer/filtering/paging
engine (crate `tui_logger`), together with proofs checking the
natural-language specification against the code.

Source files embedded:
  * `src/circular.rs`        — `CircularBuffer`
  * `src/config/level_config.rs` — `LevelConfig`
  * `src/logger/logger.rs`   — `ExtLogRecord`, `TuiLogger::move_events`,
                               `impl Log for TuiLogger` (`enabled`), `raw_log`
  * `src/logger/api.rs`      — configuration entry points
  * `src/widget/inner.rs`    — `TuiWidgetInnerState`, `transition`
  * `src/widget/standard.rs` — `TuiLoggerWidget::next_event` / `render`

Machine integers (`usize`, `u64`) are modelled as `Nat`; operations that can
panic in Rust (indexing, `%` with divisor zero, `usize` subtraction overflow
where reachable) are modelled in `Option`, with `none` standing for a panic.
External collaborators (the `env_filter` crate, `fxhash::hash64`, the
text-wrapping `LogFormatter`) are modelled from the spec as parameters.
-/

set_option autoImplicit false

namespace TuiLog

/-- The five record levels of the `log` crate,
`Error < Warn < Info < Debug < Trace` (increasing verbosity). -/
inductive Level
  | Error
  | Warn
  | Info
  | Debug
  | Trace
  deriving DecidableEq, Repr

/-- Discriminant of `log::Level` (starts at 1; `LevelFilter::Off` is 0). -/
def Level.toNat : Level → Nat
  | .Error => 1
  | .Warn => 2
  | .Info => 3
  | .Debug => 4
  | .Trace => 5

/-- `log::LevelFilter`: `Off < Error < Warn < Info < Debug < Trace`. -/
inductive LevelFilter
  | Off
  | Error
  | Warn
  | Info
  | Debug
  | Trace
  deriving DecidableEq, Repr

/-- Discriminant of `log::LevelFilter` (`Off` is least). -/
def LevelFilter.toNat : LevelFilter → Nat
  | .Off => 0
  | .Error => 1
  | .Warn => 2
  | .Info => 3
  | .Debug => 4
  | .Trace => 5

/-- `LevelFilter::to_level()`: `Off` maps to `None`. -/
def LevelFilter.toLevel : LevelFilter → Option Level
  | .Off => none
  | .Error => some .Error
  | .Warn => some .Warn
  | .Info => some .Info
  | .Debug => some .Debug
  | .Trace => some .Trace

/-- `level <= levelfilter` (the `log` crate compares the discriminants). -/
def Level.leFilter (l : Level) (f : LevelFilter) : Bool :=
  l.toNat ≤ f.toNat

/-- `levelfilter < level` (used by the display-filter predicate). -/
def LevelFilter.ltLevel (f : LevelFilter) (l : Level) : Bool :=
  f.toNat < l.toNat

/-- `LevelFilter <= LevelFilter` on discriminants. -/
def LevelFilter.leF (a b : LevelFilter) : Bool :=
  a.toNat ≤ b.toNat

/-- `LevelFilter > LevelFilter` on discriminants. -/
def LevelFilter.gtF (a b : LevelFilter) : Bool :=
  b.toNat < a.toNat

/-!  ## `src/circular.rs` — `CircularBuffer<T>`

The backing `Vec<T>` is the list `buffer`; `Vec::with_capacity(max_depth)`
pins the allocation, so the capacity is carried as an explicit field.
-/

structure CircularBuffer (α : Type) where
  buffer : List α
  next_write_pos : Nat
  capacity : Nat
  deriving DecidableEq, Repr

namespace CircularBuffer

variable {α : Type}

/-- `CircularBuffer::new(max_depth)` -/
def new (max_depth : Nat) : CircularBuffer α :=
  { buffer := [], next_write_pos := 0, capacity := max_depth }

/-- `CircularBuffer::len` -/
def len (cb : CircularBuffer α) : Nat :=
  cb.buffer.length

/-- `CircularBuffer::is_empty` -/
def isEmpty (cb : CircularBuffer α) : Bool :=
  cb.buffer.isEmpty

/-- `CircularBuffer::first_index` -/
def first_index (cb : CircularBuffer α) : Option Nat :=
  if cb.next_write_pos = 0 then none
  else if cb.next_write_pos < cb.capacity then some 0
  else some (cb.next_write_pos - cb.capacity)

/-- `CircularBuffer::last_index` -/
def last_index (cb : CircularBuffer α) : Option Nat :=
  if cb.next_write_pos = 0 then none
  else some (cb.next_write_pos - 1)

/-- `CircularBuffer::element_at_index` -/
def element_at_index (cb : CircularBuffer α) (index : Nat) : Option α :=
  if cb.next_write_pos ≤ index then none
  else if index + cb.capacity < cb.next_write_pos then none
  else cb.buffer[index % cb.capacity]?

/-- `CircularBuffer::push`.  In the branch where the buffer is full the
source evaluates `self.next_write_pos % max_depth`; with `max_depth == 0`
this is a remainder by zero and panics, modelled as `none`. -/
def push (cb : CircularBuffer α) (elem : α) : Option (CircularBuffer α) :=
  if cb.buffer.length < cb.capacity then
    some { cb with buffer := cb.buffer ++ [elem],
                   next_write_pos := cb.next_write_pos + 1 }
  else if cb.capacity = 0 then
    none
  else
    some { cb with buffer := cb.buffer.set (cb.next_write_pos % cb.capacity) elem,
                   next_write_pos := cb.next_write_pos + 1 }

/-- `CircularBuffer::take`: drains oldest-first and resets the buffer.
The full branch evaluates `self.next_write_pos % max_depth`
(remainder by zero when the capacity is 0, modelled as `none`). -/
def take (cb : CircularBuffer α) : Option (List α × CircularBuffer α) :=
  if cb.buffer.length < cb.capacity then
    some (cb.buffer, { cb with buffer := [], next_write_pos := 0 })
  else if cb.capacity = 0 then
    none
  else
    let pos := cb.next_write_pos % cb.capacity
    some (cb.buffer.drop pos ++ cb.buffer.take pos,
          { cb with buffer := [], next_write_pos := 0 })

/-- `CircularBuffer::total_elements` -/
def total_elements (cb : CircularBuffer α) : Nat :=
  cb.next_write_pos

/-- `CircularBuffer::has_wrapped` -/
def has_wrapped (cb : CircularBuffer α) : Bool :=
  cb.capacity < cb.next_write_pos

/-- The sequence produced by `CircularBuffer::iter` (push order). -/
def iterList (cb : CircularBuffer α) : List α :=
  if cb.next_write_pos ≤ cb.capacity then cb.buffer
  else
    let wrap := cb.next_write_pos % cb.capacity
    cb.buffer.drop wrap ++ cb.buffer.take wrap

/-- The sequence produced by `CircularBuffer::rev_iter` (reverse push order). -/
def revIterList (cb : CircularBuffer α) : List α :=
  if cb.next_write_pos ≤ cb.capacity then cb.buffer.reverse
  else
    let wrap := cb.next_write_pos % cb.capacity
    (cb.buffer.take wrap).reverse ++ (cb.buffer.drop wrap).reverse

/-- A sequence of pushes (left to right). -/
def pushList (cb : CircularBuffer α) (l : List α) : Option (CircularBuffer α) :=
  l.foldlM push cb

end CircularBuffer

/-!  ## `src/config/level_config.rs` — `LevelConfig`

The `HashMap<String, LevelFilter>` is modelled as an association list with
unique keys (`set` updates in place, so insertion never duplicates a key);
the iteration order of the model is the insertion order, one of the orders
the `HashMap` may present.
-/

structure LevelConfig where
  config : List (String × LevelFilter)
  generation : Nat
  origin_generation : Nat
  default_display_level : Option LevelFilter
  deriving DecidableEq, Repr

namespace LevelConfig

/-- `LevelConfig::new` -/
def new : LevelConfig :=
  { config := [], generation := 0, origin_generation := 0,
    default_display_level := none }

/-- In-place update of the entry holding `target` (the `get_mut` branch). -/
def updateEntry : List (String × LevelFilter) → String → LevelFilter →
    List (String × LevelFilter)
  | [], _, _ => []
  | (k, v) :: rest, target, level =>
    if k = target then (k, level) :: rest
    else (k, v) :: updateEntry rest target level

/-- Association-list lookup (`HashMap::get`). -/
def lookup : List (String × LevelFilter) → String → Option LevelFilter
  | [], _ => none
  | (k, v) :: rest, target => if k = target then some v else lookup rest target

/-- `LevelConfig::set`: idempotent (no generation bump when unchanged). -/
def set (c : LevelConfig) (target : String) (level : LevelFilter) : LevelConfig :=
  match lookup c.config target with
  | some lev =>
    if lev ≠ level then
      { c with config := updateEntry c.config target level,
               generation := c.generation + 1 }
    else c
  | none =>
    { c with config := c.config ++ [(target, level)],
             generation := c.generation + 1 }

/-- `LevelConfig::set_default_display_level` -/
def set_default_display_level (c : LevelConfig) (level : LevelFilter) : LevelConfig :=
  { c with default_display_level := some level }

/-- `LevelConfig::get` -/
def get (c : LevelConfig) (target : String) : Option LevelFilter :=
  lookup c.config target

/-- One iteration of the `merge` loop body for one `(target, levelfilter)`
entry of the origin table. -/
def mergeStep (c : LevelConfig) (entry : String × LevelFilter) : LevelConfig :=
  match c.get entry.1 with
  | some levelfilter =>
    if levelfilter.leF entry.2 then c
    else
      let lf := match c.default_display_level with
        | some lvl => if lvl.gtF entry.2 then entry.2 else lvl
        | none => entry.2
      c.set entry.1 lf
  | none =>
    let lf := match c.default_display_level with
      | some lvl => if lvl.gtF entry.2 then entry.2 else lvl
      | none => entry.2
    c.set entry.1 lf

/-- `LevelConfig::merge`.  Note that the source ends the merged branch with
`self.generation = origin.generation` and never writes `origin_generation`. -/
def merge (c : LevelConfig) (origin : LevelConfig) : LevelConfig :=
  if c.origin_generation ≠ origin.generation then
    let c' := origin.config.foldl mergeStep c
    { c' with generation := origin.generation }
  else c

end LevelConfig

/-!  ## `src/logger/logger.rs`, `src/logger/api.rs` — the logger core

`env_filter::Filter` and `fxhash::hash64` are external crates. -/

/-- Modelled from the spec: the external `env_filter` crate's pattern filter
("pattern-based environment filter").  Its directives resolve each target to a
maximum level, so the filter is a threshold per target and its verdict for a
`(target, level)` metadata query is `level <= threshold(target)`. -/
structure EnvFilter where
  threshold : String → LevelFilter

/-- `env_filter::Filter::enabled(metadata)` for metadata (target, level). -/
def EnvFilter.enabled (f : EnvFilter) (target : String) (level : Level) : Bool :=
  level.leFilter (f.threshold target)

/-- `HashMap<u64, LevelFilter>::get` on the hot hash table. -/
def lookupHash : List (Nat × LevelFilter) → Nat → Option LevelFilter
  | [], _ => none
  | (k, v) :: rest, h => if k = h then some v else lookupHash rest h

/-- `HashMap<u64, LevelFilter>::insert` (replaces an existing key). -/
def insertHash : List (Nat × LevelFilter) → Nat → LevelFilter →
    List (Nat × LevelFilter)
  | [], h, lf => [(h, lf)]
  | (k, v) :: rest, h, lf =>
    if k = h then (k, lf) :: rest else (k, v) :: insertHash rest h lf

/-- `HotSelect` (the `mover_thread` handle of `HotLog` is concurrency plumbing
with no data content and is not part of the state model). -/
structure HotSelect where
  filter : Option EnvFilter
  hashtable : List (Nat × LevelFilter)
  default : LevelFilter

/-- `ExtLogRecord` (timestamps are opaque instants, modelled as `Nat`;
`StringOrStatic` is just a `String` after `as_str`). -/
structure ExtLogRecord where
  timestamp : Nat
  level : Level
  target : String
  file : Option String
  module_path : Option String
  line : Option Nat
  msg : String
  deriving DecidableEq, Repr

/-- The message of the synthesized overflow record. -/
def overrunMsg (total elements : Nat) : String :=
  "There have been " ++ toString (total - elements) ++ " events lost, "
    ++ toString elements ++ " recorded out of " ++ toString total

/-- `ExtLogRecord::overrun` -/
def ExtLogRecord.overrun (timestamp : Nat) (total elements : Nat) : ExtLogRecord :=
  { timestamp := timestamp
    level := .Warn
    target := "TuiLogger"
    file := none
    module_path := none
    line := none
    msg := overrunMsg total elements }

/-- `TuiLoggerInner`.  The optional file sink `dump` only performs best-effort
I/O (write errors are swallowed and the record is pushed regardless), so its
formatting options carry no state relevant to the embedding. -/
structure TuiLoggerInner where
  hot_depth : Nat
  events : CircularBuffer ExtLogRecord
  dump : Option Unit
  total_events : Nat
  default : LevelFilter
  targets : LevelConfig
  filter : Option EnvFilter

/-- `TuiLogger` (the three mutex-protected sections, as plain data). -/
structure TuiLogger where
  hot_select : HotSelect
  hot_log : CircularBuffer ExtLogRecord
  inner : TuiLoggerInner

/-- The static `TUI_LOGGER` initializer from `lazy_static!`. -/
def TuiLogger.init : TuiLogger :=
  { hot_select := { filter := none, hashtable := [], default := .Info }
    hot_log := CircularBuffer.new 1000
    inner :=
      { hot_depth := 1000
        events := CircularBuffer.new 10000
        dump := none
        total_events := 0
        default := .Info
        targets := LevelConfig.new
        filter := none } }

/-- `impl Log for TuiLogger`, `fn enabled`: hot-hashtable override, else
env-filter verdict, else global default.  `hash` stands for the external
`fxhash::hash64` ("fast, collision-tolerant, non-cryptographic hash"). -/
def TuiLogger.enabled (hash : String → Nat) (s : TuiLogger)
    (target : String) (level : Level) : Bool :=
  match lookupHash s.hot_select.hashtable (hash target) with
  | some levelfilter => level.leFilter levelfilter
  | none =>
    match s.hot_select.filter with
    | some envfilter => envfilter.enabled target level
    | none => level.leFilter s.hot_select.default

/-- The effective threshold of the spec's fallback chain
(hot override → pattern filter → global default), written from the spec's
words for comparison with `TuiLogger.enabled`. -/
def effectiveThreshold (hash : String → Nat) (s : TuiLogger)
    (target : String) : LevelFilter :=
  match lookupHash s.hot_select.hashtable (hash target) with
  | some levelfilter => levelfilter
  | none =>
    match s.hot_select.filter with
    | some envfilter => envfilter.threshold target
    | none => s.hot_select.default

/-- `TuiLogger::raw_log`: push into the hot buffer, then compute the wake
signal `total_elements % (capacity / 2) == 0`.  When the hot capacity is 0
the push itself panics; when it is 1, `capacity / 2 == 0` and the remainder
panics.  The `unpark` of the mover thread has no data content. -/
def TuiLogger.rawLog (s : TuiLogger) (record : ExtLogRecord) : Option TuiLogger := do
  let events ← s.hot_log.push record
  let halfCapacity := events.capacity / 2
  if halfCapacity = 0 then
    none
  else
    let _need_signal := events.total_elements % halfCapacity == 0
    some { s with hot_log := events }

/-- `impl Log for TuiLogger`, `fn log`. -/
def TuiLogger.log (hash : String → Nat) (s : TuiLogger) (record : ExtLogRecord) :
    Option TuiLogger :=
  if s.enabled hash record.target record.level then s.rawLog record
  else some s

/-- The probing loop of `move_events`: iterate the level filters from most to
least verbose and return the first one the env filter accepts
(`lf.to_level().unwrap()` cannot panic: `Off` is not probed). -/
def probeFilter (filter : EnvFilter) (target : String) : Option LevelFilter :=
  [LevelFilter.Trace, .Debug, .Info, .Warn, .Error].find? fun lf =>
    match lf.toLevel with
    | some l => filter.enabled target l
    | none => false

/-- The seeding prefix of the `move_events` drain-loop body: a target unseen
in the cold `LevelConfig` is seeded from the global default, or — when the
env filter accepts the record — from the probed filter boundary, which is
also cached in the hot hash table. -/
def seedTarget (hash : String → Nat) (s : TuiLogger) (log_entry : ExtLogRecord) :
    TuiLogger :=
  if (s.inner.targets.get log_entry.target).isNone then
    let default_level := s.inner.default
    match s.inner.filter with
    | some filter =>
      if filter.enabled log_entry.target log_entry.level then
        match probeFilter filter log_entry.target with
        | some lf =>
          { s with
            hot_select := { s.hot_select with
              hashtable := insertHash s.hot_select.hashtable (hash log_entry.target) lf }
            inner := { s.inner with targets := s.inner.targets.set log_entry.target lf } }
        | none =>
          { s with inner :=
              { s.inner with targets := s.inner.targets.set log_entry.target default_level } }
      else
        { s with inner :=
            { s.inner with targets := s.inner.targets.set log_entry.target default_level } }
    | none =>
      { s with inner :=
          { s.inner with targets := s.inner.targets.set log_entry.target default_level } }
  else s

/-- The per-record body of the `move_events` drain loop: seed an unseen
target, optionally dump to file (pure best-effort I/O, no state), then push
into the cold buffer (`Option`: the push panics on a zero-capacity cold
buffer). -/
def processRecord (hash : String → Nat) (s : TuiLogger) (log_entry : ExtLogRecord) :
    Option TuiLogger :=
  let s := seedTarget hash s log_entry
  do
    let events ← s.inner.events.push log_entry
    some { s with inner := { s.inner with events := events } }

/-- `TuiLogger::move_events`.  The source builds `reversed` (newest first),
appends the overrun record when `total > elements` (timestamp of
`reversed[reversed.len() - 1]`, the oldest retained record, an indexing panic
when the drain is empty), then pops: so the processing order is the overrun
record first, followed by the drained records oldest-first. -/
def TuiLogger.moveEvents (hash : String → Nat) (s : TuiLogger) : Option TuiLogger :=
  if s.hot_log.total_elements = 0 then some s
  else
    let hot_depth := s.inner.hot_depth
    let received_events := s.hot_log
    let s := { s with hot_log := CircularBuffer.new hot_depth }
    let total := received_events.total_elements
    let elements := received_events.len
    let s := { s with inner := { s.inner with total_events := s.inner.total_events + total } }
    do
      let (consumed, _) ← received_events.take
      let toProcess ←
        if total > elements then
          match consumed.head? with
          | none => none
          | some oldest =>
            some (ExtLogRecord.overrun oldest.timestamp total elements :: consumed)
        else some consumed
      toProcess.foldlM (processRecord hash) s

/-!  Configuration entry points of `src/logger/api.rs` (state transformers on
the singleton). -/

/-- `set_hot_buffer_depth` — takes effect at the next `move_events`. -/
def setHotBufferDepth (s : TuiLogger) (depth : Nat) : TuiLogger :=
  { s with inner := { s.inner with hot_depth := depth } }

/-- `set_buffer_depth` — replaces the cold buffer, dropping history. -/
def setBufferDepth (s : TuiLogger) (depth : Nat) : TuiLogger :=
  { s with inner := { s.inner with events := CircularBuffer.new depth } }

/-- `set_default_level` -/
def setDefaultLevel (s : TuiLogger) (levelfilter : LevelFilter) : TuiLogger :=
  { s with hot_select := { s.hot_select with default := levelfilter }
           inner := { s.inner with default := levelfilter } }

/-- `remove_env_filter` -/
def removeEnvFilter (s : TuiLogger) : TuiLogger :=
  { s with hot_select := { s.hot_select with filter := none }
           inner := { s.inner with filter := none } }

/-- `set_env_filter` (both copies built from the same directive string). -/
def setEnvFilter (s : TuiLogger) (f : EnvFilter) : TuiLogger :=
  { s with hot_select := { s.hot_select with filter := some f }
           inner := { s.inner with filter := some f } }

/-- `set_level_for_target` -/
def setLevelForTarget (hash : String → Nat) (s : TuiLogger)
    (target : String) (levelfilter : LevelFilter) : TuiLogger :=
  { s with inner := { s.inner with targets := s.inner.targets.set target levelfilter }
           hot_select := { s.hot_select with
             hashtable := insertHash s.hot_select.hashtable (hash target) levelfilter } }

/-!  ## `src/widget/inner.rs` — widget shared state and its state machine -/

/-- `TuiWidgetEvent` -/
inductive TuiWidgetEvent
  | SpaceKey
  | HideKey
  | FocusKey
  | UpKey
  | DownKey
  | LeftKey
  | RightKey
  | PlusKey
  | MinusKey
  | PrevPageKey
  | NextPageKey
  | EscapeKey
  deriving DecidableEq, Repr

/-- `LinePointer`: scroll anchor `(event_index, subline)` into the cold store. -/
structure LinePointer where
  event_index : Nat
  subline : Nat
  deriving DecidableEq, Repr

/-- `TuiWidgetInnerState` -/
structure TuiWidgetInnerState where
  config : LevelConfig
  nr_items : Nat
  selected : Nat
  opt_line_pointer_center : Option LinePointer
  opt_line_pointer_next_page : Option LinePointer
  opt_line_pointer_prev_page : Option LinePointer
  opt_selected_target : Option String
  opt_selected_visibility_more : Option LevelFilter
  opt_selected_visibility_less : Option LevelFilter
  opt_selected_recording_more : Option LevelFilter
  opt_selected_recording_less : Option LevelFilter
  offset : Nat
  hide_off : Bool
  hide_target : Bool
  focus_selected : Bool

/-- `TuiWidgetInnerState::new` (the `Default` derive). -/
def TuiWidgetInnerState.new : TuiWidgetInnerState :=
  { config := LevelConfig.new
    nr_items := 0
    selected := 0
    opt_line_pointer_center := none
    opt_line_pointer_next_page := none
    opt_line_pointer_prev_page := none
    opt_selected_target := none
    opt_selected_visibility_more := none
    opt_selected_visibility_less := none
    opt_selected_recording_more := none
    opt_selected_recording_less := none
    offset := 0
    hide_off := false
    hide_target := false
    focus_selected := false }

/-- `TuiWidgetInnerState::transition`.  `PlusKey`/`MinusKey` forward to the
global `set_level_for_target` (a logger-side effect); on the widget state they
only `take()` the option fields, which is what is modelled here. -/
def TuiWidgetInnerState.transition (s : TuiWidgetInnerState) (event : TuiWidgetEvent) :
    TuiWidgetInnerState :=
  match event with
  | .SpaceKey => { s with hide_off := !s.hide_off }
  | .HideKey => { s with hide_target := !s.hide_target }
  | .FocusKey => { s with focus_selected := !s.focus_selected }
  | .UpKey =>
    if !s.hide_target && 0 < s.selected then { s with selected := s.selected - 1 } else s
  | .DownKey =>
    if !s.hide_target && s.selected + 1 < s.nr_items then
      { s with selected := s.selected + 1 }
    else s
  | .LeftKey =>
    match s.opt_selected_target with
    | some selected_target =>
      match s.opt_selected_visibility_less with
      | some selected_visibility_less =>
        { s with opt_selected_target := none
                 opt_selected_visibility_less := none
                 config := s.config.set selected_target selected_visibility_less }
      | none => { s with opt_selected_target := none }
    | none => s
  | .RightKey =>
    match s.opt_selected_target with
    | some selected_target =>
      match s.opt_selected_visibility_more with
      | some selected_visibility_more =>
        { s with opt_selected_target := none
                 opt_selected_visibility_more := none
                 config := s.config.set selected_target selected_visibility_more }
      | none => { s with opt_selected_target := none }
    | none => s
  | .PlusKey =>
    match s.opt_selected_target with
    | some _ =>
      { s with opt_selected_target := none, opt_selected_recording_more := none }
    | none => s
  | .MinusKey =>
    match s.opt_selected_target with
    | some _ =>
      { s with opt_selected_target := none, opt_selected_recording_less := none }
    | none => s
  | .PrevPageKey => { s with opt_line_pointer_center := s.opt_line_pointer_prev_page }
  | .NextPageKey => { s with opt_line_pointer_center := s.opt_line_pointer_next_page }
  | .EscapeKey => { s with opt_line_pointer_center := none }

/-!  ## `src/widget/standard.rs` — `TuiLoggerWidget::next_event` / `render`

The `LogFormatter` collaborator is external (spec: `wrap(text, width) ->
list of lines`); the paging algorithm only consumes the list of wrapped
lines per event, and every observable of the claims — line pointers and
screen rows — depends only on how many lines each event formats to, so the
formatter is carried as an events-to-line-count function with the viewport
width already applied. -/

/-- The filter predicate inside `next_event`: skip when the display level for
the event's target (explicit entry, else table default) is less urgent than
the event's level, or when focus is active and the target differs. -/
def eventSkipped (state : TuiWidgetInnerState) (evt : ExtLogRecord) : Bool :=
  let skipLevel :=
    match (state.config.get evt.target).or state.config.default_display_level with
    | some level => level.ltLevel evt.level
    | none => false
  if skipLevel then true
  else if state.focus_selected then
    match state.opt_selected_target with
    | some target => target ≠ evt.target
    | none => false
  else false

/-- The `while` loop of `next_event` in the `increment` direction.  The
scan visits strictly increasing indices and `element_at_index` fails from
`next_write_pos` on, so the loop runs at most `next_write_pos` iterations;
the structural `fuel` supplied by `next_event` dominates that bound, and the
fuel-exhausted branch is unreachable. -/
def scanUp (events : CircularBuffer ExtLogRecord) (state : TuiWidgetInnerState) :
    Nat → Nat → Option (Option Nat × Nat × ExtLogRecord)
  | 0, _ => none
  | fuel + 1, index =>
    match events.element_at_index index with
    | none => none
    | some evt =>
      if eventSkipped state evt then scanUp events state fuel (index + 1)
      else some (some (index + 1), index, evt)

/-- The `while` loop of `next_event` in the decrement direction
(`break` at index 0 falls through to `None`). -/
def scanDown (events : CircularBuffer ExtLogRecord) (state : TuiWidgetInnerState) :
    Nat → Option (Option Nat × Nat × ExtLogRecord)
  | 0 =>
    match events.element_at_index 0 with
    | none => none
    | some evt =>
      if eventSkipped state evt then none
      else some (none, 0, evt)
  | index + 1 =>
    match events.element_at_index (index + 1) with
    | none => none
    | some evt =>
      if eventSkipped state evt then scanDown events state index
      else some (some index, index + 1, evt)

/-- `TuiLoggerWidget::next_event`: returns `(optional next index, event
index, event)` after the optional `ignore_current` step and the skip loop. -/
def next_event (events : CircularBuffer ExtLogRecord) (state : TuiWidgetInnerState)
    (index : Nat) (ignore_current increment : Bool) :
    Option (Option Nat × Nat × ExtLogRecord) :=
  if increment then
    scanUp events state (events.next_write_pos + 1)
      (if ignore_current then index + 1 else index)
  else
    if ignore_current then
      if index = 0 then none else scanDown events state (index - 1)
    else scanDown events state index

/-- An entry of the `lines` vector in the centered-scroll branch:
event index, number of wrapped lines still held (`evt_lines.len()` after
trimming), and the original line count `n`. -/
structure CEntry where
  evt_index : Nat
  remaining : Nat
  n : Nat
  deriving DecidableEq, Repr

/-- The line pointers a `lines` entry contributes to `rev_lines`: the build
loop iterates the remaining lines, decrementing `n` before each push, so the
sublines run `n-1, n-2, …, n-remaining` in that order. -/
def CEntry.ptrs (e : CEntry) : List LinePointer :=
  ((List.range e.n).reverse.take e.remaining).map fun s => ⟨e.evt_index, s⟩

/-- The expansion loop (`while cont`) of the centered-scroll branch.  One
fuel unit is one pass; the passes stop exactly as the source's `cont`/`break`
flow dictates, and the fuel passed by `centerBranch` dominates the pass count
whenever every event formats to at least one line (with zero-line events the
source loop itself does not terminate).  `lines.first().unwrap()` on an empty
vector is a panic (`none`).  Older events are fetched below the first
collected entry; newer events are fetched — as in the source — relative to
the fixed center `event_index`. -/
def centerLoop (fmt : ExtLogRecord → Nat) (events : CircularBuffer ExtLogRecord)
    (state : TuiWidgetInnerState) (center_index H : Nat) :
    Nat → List CEntry → Int → Nat → Option (List CEntry × Int × Nat)
  | 0, lines, from_line, to_line => some (lines, from_line, to_line)
  | fuel + 1, lines, from_line, to_line => do
    -- pass begins with `cont = false`
    let (lines, from_line, to_line, cont) ←
      if 0 < from_line then
        match lines.head? with
        | none => none
        | some first =>
          match next_event events state first.evt_index true false with
          | some (_, evt_index, evt) =>
            let n := fmt evt
            some ((⟨evt_index, n, n⟩ : CEntry) :: lines, from_line - (n : Int),
                  to_line, true)
          | none =>
            -- no more events, so adjust start
            some (lines, (0 : Int), to_line - from_line.toNat, false)
      else some (lines, from_line, to_line, false)
    let (lines, from_line, to_line, cont, brk) :=
      if to_line < H - 1 then
        match next_event events state center_index true true with
        | some (_, evt_index, evt) =>
          let n := fmt evt
          (lines ++ [(⟨evt_index, n, n⟩ : CEntry)], from_line, to_line + n, true, false)
        | none =>
          if !cont then (lines, from_line, to_line, cont, true) -- `break`
          else (lines, from_line + (((H - 1) - to_line : Nat) : Int), H - 1, cont, false)
      else (lines, from_line, to_line, cont, false)
    if brk then some (lines, from_line, to_line)
    else if cont then centerLoop fmt events state center_index H fuel lines from_line to_line
    else some (lines, from_line, to_line)

/-- `while from_line < 0 { lines[0].1.remove(0); from_line += 1 }`, run for
`k` iterations.  `lines[0]` on an empty vector and `remove(0)` on an empty
line vector are panics. -/
def trimFrontLoop : Nat → List CEntry → Option (List CEntry)
  | 0, lines => some lines
  | k + 1, lines =>
    match lines with
    | [] => none
    | e :: rest =>
      if e.remaining = 0 then none
      else trimFrontLoop k (⟨e.evt_index, e.remaining - 1, e.n⟩ :: rest)

/-- Decrement the remaining-line count of the last entry
(`lines[lines.len()-1].1.pop()`; `Vec::pop` on an empty vector is a no-op). -/
def updLast : List CEntry → List CEntry
  | [] => []
  | [e] => [⟨e.evt_index, e.remaining - 1, e.n⟩]
  | e :: rest => e :: updLast rest

/-- `while to_line >= la_height { lines[lines.len()-1].1.pop(); to_line -= 1 }`,
run for `k` iterations.  `lines.len() - 1` on an empty vector underflows
(panic). -/
def trimBackLoop : Nat → List CEntry → Option (List CEntry)
  | 0, lines => some lines
  | k + 1, lines =>
    match lines with
    | [] => none
    | _ :: _ => trimBackLoop k (updLast lines)

/-- The `Pos::Center` branch of `render`: locate the anchored event, seed the
virtual line window `[from_line, to_line]` with the anchor's subline at the
center row `la_height / 2`, expand, trim, and emit `rev_lines` (bottom-most
line first).  The initial `la_height / 2 + (evt_lines.len() - 1) - subline`
is `usize` arithmetic and panics on underflow. -/
def centerBranch (fmt : ExtLogRecord → Nat) (events : CircularBuffer ExtLogRecord)
    (state : TuiWidgetInnerState) (H : Nat) (lp : LinePointer) :
    Option (List LinePointer) :=
  match next_event events state lp.event_index false true with
  | none => some []
  | some (_, evt_index, evt) =>
    let n := fmt evt
    if n = 0 then none
    else if H / 2 + (n - 1) < lp.subline then none
    else
      let from_line : Int := ((H / 2 : Nat) : Int) - (lp.subline : Int)
      let to_line : Nat := H / 2 + (n - 1) - lp.subline
      let fuel := events.next_write_pos + 2 * H + 4
      do
        let (lines, from_line, to_line) ←
          centerLoop fmt events state lp.event_index H fuel
            [(⟨evt_index, n, n⟩ : CEntry)] from_line to_line
        let lines ← trimFrontLoop (-from_line).toNat lines
        let lines ← trimBackLoop (to_line + 1 - H) lines
        some (lines.reverse.map CEntry.ptrs).flatten

/-- The `Pos::Bottom` branch of `render`: walk backward from the given event
index, popping each event's wrapped lines bottom-first (sublines `n-1 … 0`)
into `rev_lines`, and `break 'outer` the moment the viewport is full.  The
fuel supplied by `renderWidget` dominates the number of events visited. -/
def bottomFill (fmt : ExtLogRecord → Nat) (events : CircularBuffer ExtLogRecord)
    (state : TuiWidgetInnerState) (H : Nat) :
    Nat → Nat → List LinePointer → List LinePointer
  | 0, _, rev_lines => rev_lines
  | fuel + 1, event_index, rev_lines =>
    match next_event events state event_index false false with
    | none => rev_lines
    | some (opt_next_index, evt_index, evt) =>
      let n := fmt evt
      let room := H - rev_lines.length
      let pushed := ((List.range n).reverse.take room).map
        fun s => (⟨evt_index, s⟩ : LinePointer)
      let rev_lines := rev_lines ++ pushed
      if H ≤ rev_lines.length then rev_lines
      else
        match opt_next_index with
        | some next_index => bottomFill fmt events state H fuel next_index rev_lines
        | none => rev_lines

/-- The tail of `render`: update the page-pointer cache from `rev_lines` and
the scroll flags, then lay the lines out top-to-bottom.  Each drawn line is
reported as `(line pointer, relative screen row)`; the row includes the
`offset` that bottom-aligns a partially filled centered view. -/
def renderFinish (state : TuiWidgetInnerState) (H : Nat)
    (rev_lines : List LinePointer) (can_scroll_up can_scroll_down : Bool) :
    TuiWidgetInnerState × List (LinePointer × Nat) :=
  let state :=
    { state with
      opt_line_pointer_next_page :=
        if can_scroll_down then rev_lines.head? else none
      opt_line_pointer_prev_page :=
        if can_scroll_up then rev_lines.getLast? else none }
  let offset := if state.opt_line_pointer_center.isNone then 0
    else H - rev_lines.length
  let drawn := (rev_lines.reverse.take H).enum.map fun p => (p.2, p.1 + offset)
  (state, drawn)

/-- `TuiLoggerWidget::render` on one viewport of height `H` lines (the width
and block handling live in the external toolkit; `fmt` already reflects the
width).  Returns the updated widget state and the drawn lines; `none` models
a panic inside the centered-scroll assembly. -/
def renderWidget (fmt : ExtLogRecord → Nat) (events : CircularBuffer ExtLogRecord)
    (state : TuiWidgetInnerState) (H : Nat) :
    Option (TuiWidgetInnerState × List (LinePointer × Nat)) :=
  if H < 1 then some (state, [])
  else
    let can_scroll_down := state.opt_line_pointer_center.isSome
    match state.opt_line_pointer_center with
    | some lp =>
      match events.first_index with
      | none => some (renderFinish state H [] false false)
      | some first_index =>
        if first_index ≤ lp.event_index then do
          let rev_lines ← centerBranch fmt events state H lp
          some (renderFinish state H rev_lines true can_scroll_down)
        else
          -- Pos::Top: the anchored event has been dropped from the ring
          some (renderFinish state H [] false can_scroll_down)
    | none =>
      match events.last_index with
      | none => some (renderFinish state H [] false false)
      | some last_index =>
        let rev_lines :=
          bottomFill fmt events state H (events.next_write_pos + 1) last_index []
        some (renderFinish state H rev_lines true can_scroll_down)

/-!  ## Auxiliary predicates and concrete scenarios -/

/-- The representation invariant `push` maintains on a `CircularBuffer`
(the live `Vec` length is the total push count clipped to the capacity). -/
def CircularBuffer.Wf {α : Type} (cb : CircularBuffer α) : Prop :=
  cb.buffer.length = min cb.next_write_pos cb.capacity

/-- The `LevelConfig` values constructible through the crate's API:
`new`, `set` (logger- and widget-side), `set_default_display_level`
(including the widget builder's direct field write), and `merge`. -/
inductive LevelConfig.Reachable : LevelConfig → Prop
  | new : LevelConfig.Reachable LevelConfig.new
  | set (t : String) (lf : LevelFilter) {c : LevelConfig} :
      LevelConfig.Reachable c → LevelConfig.Reachable (c.set t lf)
  | setDefault (lf : LevelFilter) {c : LevelConfig} :
      LevelConfig.Reachable c →
      LevelConfig.Reachable (c.set_default_display_level lf)
  | merge {c o : LevelConfig} :
      LevelConfig.Reachable c → LevelConfig.Reachable o →
      LevelConfig.Reachable (c.merge o)

/-- A single-line historical event numbered `i` (spec scenario C). -/
def evRec (i : Nat) : ExtLogRecord :=
  { timestamp := i, level := .Info, target := "test", file := none,
    module_path := none, line := none, msg := toString i }

/-- A formatter wrapping every event to exactly one line. -/
def fmtOne : ExtLogRecord → Nat := fun _ => 1

/-- The cold store of spec scenario C: six single-line events at absolute
indices 0..5 (newest = 5), in a default-capacity (10000) cold buffer. -/
def eventsSix : CircularBuffer ExtLogRecord :=
  { buffer := [evRec 0, evRec 1, evRec 2, evRec 3, evRec 4, evRec 5]
    next_write_pos := 6
    capacity := 10000 }

/-- Spec scenario C, end to end: bottom-follow render, `PrevPageKey`,
render, `PrevPageKey`, render, `NextPageKey`, render — collecting for each
render the event indices of the drawn lines, top to bottom. -/
def scenarioC : Option (List (List Nat)) := do
  let (st1, d1) ← renderWidget fmtOne eventsSix TuiWidgetInnerState.new 3
  let (st2, d2) ← renderWidget fmtOne eventsSix (st1.transition .PrevPageKey) 3
  let (st3, d3) ← renderWidget fmtOne eventsSix (st2.transition .PrevPageKey) 3
  let (_st4, d4) ← renderWidget fmtOne eventsSix (st3.transition .NextPageKey) 3
  some [d1.map fun p => p.1.event_index,
        d2.map fun p => p.1.event_index,
        d3.map fun p => p.1.event_index,
        d4.map fun p => p.1.event_index]

/-- The anchor round-trip of the scroll-anchor-stability property, on the
scenario-C history with viewport height 3: render bottom-follow, capture the
top visible line's `(event_index, subline)` pointer, re-render centered at
that pointer, and report the relative screen row of that pointer in each of
the two renders. -/
def scenarioAnchor : Option (Option Nat × Option Nat) := do
  let (st1, d1) ← renderWidget fmtOne eventsSix TuiWidgetInnerState.new 3
  let topPtr ← (d1.map Prod.fst).head?
  let rowBottom := (d1.find? fun p => p.1 = topPtr).map Prod.snd
  let (_st2, d2) ← renderWidget fmtOne eventsSix
    { st1 with opt_line_pointer_center := some topPtr } 3
  let rowCenter := (d2.find? fun p => p.1 = topPtr).map Prod.snd
  some (rowBottom, rowCenter)

/-- The anchor round-trip on an arbitrary cold store with viewport height 3:
render bottom-follow, capture the top visible line's pointer, re-render
centered at it, and report that pointer's relative screen row in each of the
two renders (used to locate the anchor at history boundaries as well). -/
def anchorRoundTrip (events : CircularBuffer ExtLogRecord) :
    Option (Option Nat × Option Nat) := do
  let (st1, d1) ← renderWidget fmtOne events TuiWidgetInnerState.new 3
  let topPtr ← (d1.map Prod.fst).head?
  let rowBottom := (d1.find? fun p => p.1 = topPtr).map Prod.snd
  let (_st2, d2) ← renderWidget fmtOne events
    { st1 with opt_line_pointer_center := some topPtr } 3
  let rowCenter := (d2.find? fun p => p.1 = topPtr).map Prod.snd
  some (rowBottom, rowCenter)

/-- A two-event history (older-side boundary: the centered expansion hits
the start of history and takes the adjust-start rebalancing branch). -/
def eventsTwo : CircularBuffer ExtLogRecord :=
  { buffer := [evRec 0, evRec 1], next_write_pos := 2, capacity := 10000 }

/-- A one-event history (both boundaries hit: the short centered window is
bottom-aligned by the trailing offset). -/
def eventsOne : CircularBuffer ExtLogRecord :=
  { buffer := [evRec 0], next_write_pos := 1, capacity := 10000 }

/-- A stand-in for `fxhash::hash64` in the concrete scenario runs (a single
target is in play, so any function is collision-free there). -/
def hash0 : String → Nat := fun _ => 0

/-- The env filter built from the directive string `envfilter=info`
(threshold `Info` for the target, `Off` — reject — elsewhere). -/
def filterInfoFor (t : String) : EnvFilter :=
  ⟨fun target => if target = t then .Info else .Off⟩

/-- The records of spec scenario B (a Warn, an Info, then a second Info
after the filter removal), all on target `envfilter`. -/
def recB (i : Nat) (l : Level) : ExtLogRecord :=
  { timestamp := i, level := l, target := "envfilter", file := none,
    module_path := none, line := none, msg := "m" ++ toString i }

/-- Spec scenario B, end to end on the logger model: default level `Off`,
env filter `Info` for the target, log Warn then Info, consolidate, remove
the filter, log Info again, consolidate. -/
def scenarioB : Option TuiLogger := do
  let s := setEnvFilter (setDefaultLevel TuiLogger.init .Off)
    (filterInfoFor "envfilter")
  let s ← TuiLogger.log hash0 s (recB 1 .Warn)
  let s ← TuiLogger.log hash0 s (recB 2 .Info)
  let s ← s.moveEvents hash0
  let s := removeEnvFilter s
  let s ← TuiLogger.log hash0 s (recB 3 .Info)
  s.moveEvents hash0

/-!  # Lemmas about `CircularBuffer` -/

namespace CircularBuffer

variable {α : Type}

theorem push_capacity {cb cb' : CircularBuffer α} {e : α} (h : cb.push e = some cb') :
    cb'.capacity = cb.capacity := by
  unfold push at h
  split at h
  · cases h; rfl
  · split at h
    · cases h
    · cases h; rfl

theorem push_isSome {cb : CircularBuffer α} {e : α} :
    ((cb.push e).isSome = true) ↔ 1 ≤ cb.capacity := by
  unfold push
  split
  · next h => simp; omega
  · split
    · next h h0 => simp [h0]
    · next h h0 => simp; omega

theorem new_wf (C : Nat) : (new (α := α) C).Wf := by
  simp [Wf, new]

theorem push_wf {cb cb' : CircularBuffer α} {e : α} (hwf : cb.Wf) (h : cb.push e = some cb') :
    cb'.Wf ∧ cb'.capacity = cb.capacity ∧ cb'.next_write_pos = cb.next_write_pos + 1 := by
  unfold Wf at hwf ⊢
  unfold push at h
  split at h
  · next hlt =>
    cases h
    refine ⟨?_, rfl, rfl⟩
    simp only [List.length_append, List.length_cons, List.length_nil]
    omega
  · split at h
    · cases h
    · next hge h0 =>
      cases h
      refine ⟨?_, rfl, rfl⟩
      simp only [List.length_set]
      omega

theorem pushList_cons {cb : CircularBuffer α} {a : α} {l : List α} :
    cb.pushList (a :: l) = (cb.push a).bind fun cb1 => cb1.pushList l := rfl

theorem pushList_inv : ∀ {l : List α} {cb cb' : CircularBuffer α},
    cb.pushList l = some cb' → cb.Wf →
    cb'.Wf ∧ cb'.capacity = cb.capacity
      ∧ cb'.next_write_pos = cb.next_write_pos + l.length := by
  intro l
  induction l with
  | nil =>
    intro cb cb' h hwf
    simp only [pushList, List.foldlM, Option.pure_def, Option.some.injEq] at h
    subst h
    exact ⟨hwf, rfl, by simp⟩
  | cons a l ih =>
    intro cb cb' h hwf
    rw [pushList_cons] at h
    cases hp : cb.push a with
    | none => rw [hp] at h; cases h
    | some cb1 =>
      rw [hp] at h
      simp only [Option.some_bind] at h
      obtain ⟨w1, hc1, hn1⟩ := push_wf hwf hp
      obtain ⟨w2, hc2, hn2⟩ := ih h w1
      refine ⟨w2, hc2.trans hc1, ?_⟩
      rw [hn2, hn1]
      simp only [List.length_cons]
      omega

theorem iterList_full (cb : CircularBuffer α) (h : cb.capacity ≤ cb.next_write_pos) :
    cb.iterList = cb.buffer.drop (cb.next_write_pos % cb.capacity)
      ++ cb.buffer.take (cb.next_write_pos % cb.capacity) := by
  unfold iterList
  split
  · next hle =>
    have heq : cb.next_write_pos = cb.capacity := le_antisymm hle h
    simp [heq]
  · rfl

theorem push_iterList_full {cb cb' : CircularBuffer α} {e : α}
    (hwf : cb.Wf) (hcap : 1 ≤ cb.capacity) (hfull : cb.capacity ≤ cb.next_write_pos)
    (h : cb.push e = some cb') :
    cb'.iterList = cb.iterList.drop 1 ++ [e] := by
  have hlen : cb.buffer.length = cb.capacity := by
    unfold Wf at hwf; omega
  unfold push at h
  rw [if_neg (by omega), if_neg (by omega)] at h
  cases h
  have hfull' : cb.capacity ≤ cb.next_write_pos + 1 := by omega
  rw [iterList_full cb hfull]
  rw [iterList_full { cb with
    buffer := cb.buffer.set (cb.next_write_pos % cb.capacity) e,
    next_write_pos := cb.next_write_pos + 1 } hfull']
  simp only
  set B := cb.buffer with hB
  set C := cb.capacity with hC
  set N := cb.next_write_pos with hN
  set j := N % C with hj
  have hjlt : j < C := Nat.mod_lt _ (by omega)
  have hBlen : B.length = C := hlen
  by_cases hend : j + 1 = C
  · -- the write position wraps: (N + 1) % C = 0
    have hmod : (N + 1) % C = 0 := by
      have hdvd : C ∣ (N + 1) := by
        have hdm := Nat.div_add_mod N C
        refine ⟨N / C + 1, ?_⟩
        rw [Nat.mul_succ]
        omega
      exact Nat.dvd_iff_mod_eq_zero.mp hdvd
    rw [hmod]
    simp only [List.drop_zero, List.take_zero, List.append_nil]
    have hset : B.set j e = B.take j ++ [e] := by
      rw [List.set_eq_take_cons_drop e (by omega : j < B.length)]
      rw [List.drop_eq_nil_of_le (by omega : B.length ≤ j + 1)]
    have hlast : (B.drop j).drop 1 = [] := by
      rw [List.drop_drop, List.drop_eq_nil_of_le (by omega : B.length ≤ j + 1)]
    rw [hset, List.drop_append_of_le_length (by rw [List.length_drop]; omega), hlast]
    simp
  · -- no wrap: (N + 1) % C = j + 1
    have hmod : (N + 1) % C = j + 1 := by
      have hdm := Nat.div_add_mod N C
      have hstep : N + 1 = C * (N / C) + (j + 1) := by omega
      rw [hstep, Nat.mul_add_mod, Nat.mod_eq_of_lt (by omega)]
    rw [hmod]
    have hdropset : (B.set j e).drop (j + 1) = B.drop (j + 1) := by
      rw [List.drop_set, if_pos (by omega : j < j + 1)]
    have htakeset : (B.set j e).take (j + 1) = B.take j ++ [e] := by
      rw [List.set_take]
      rw [List.set_eq_take_cons_drop e (by rw [List.length_take]; omega : j < (B.take (j + 1)).length)]
      rw [List.take_take, List.drop_eq_nil_of_le (by rw [List.length_take]; omega),
        min_eq_left (by omega)]
    have hd1 : (B.drop j ++ B.take j).drop 1 = B.drop (j + 1) ++ B.take j := by
      rw [List.drop_append_of_le_length (by rw [List.length_drop]; omega), List.drop_drop]
    rw [hdropset, htakeset, hd1]
    simp

theorem take_eq_iterList {cb : CircularBuffer α} (hwf : cb.Wf) (hcap : 1 ≤ cb.capacity) :
    cb.take = some (cb.iterList, { cb with buffer := [], next_write_pos := 0 }) := by
  by_cases hlt : cb.buffer.length < cb.capacity
  · have hle : cb.next_write_pos ≤ cb.capacity := by unfold Wf at hwf; omega
    unfold take iterList
    rw [if_pos hlt, if_pos hle]
  · have hge : cb.capacity ≤ cb.next_write_pos := by unfold Wf at hwf; omega
    rw [iterList_full cb hge]
    unfold take
    rw [if_neg hlt, if_neg (by omega)]

theorem pushList_iterList : ∀ {l : List α} {C : Nat} {cb : CircularBuffer α},
    1 ≤ C → (CircularBuffer.new (α := α) C).pushList l = some cb →
    cb.iterList = l.drop (l.length - C) := by
  intro l
  induction l using List.reverseRecOn with
  | nil =>
    intro C cb _ h
    simp only [pushList, List.foldlM, Option.pure_def, Option.some.injEq] at h
    subst h
    simp [iterList, new]
  | append_singleton l e ih =>
    intro C cb hC h
    rw [pushList, List.foldlM_append] at h
    cases hmid : (CircularBuffer.new (α := α) C).pushList l with
    | none => rw [pushList] at hmid; rw [hmid] at h; simp at h
    | some mid =>
      rw [pushList] at hmid
      rw [hmid] at h
      have h' : (mid.push e).bind (fun c => (some c : Option (CircularBuffer α)))
          = some cb := h
      clear h
      cases hp : mid.push e with
      | none => rw [hp] at h'; simp at h'
      | some cb1 =>
        rw [hp] at h'
        simp only [Option.some_bind, Option.some.injEq] at h'
        subst h'
        obtain ⟨hwf, hcapm, hnwpm⟩ :=
          pushList_inv hmid (new_wf C)
        simp only [new] at hcapm hnwpm
        have hiter := ih hC hmid
        by_cases hfull : C ≤ l.length
        · -- the buffer has reached capacity: push overwrites
          have := push_iterList_full hwf (by omega) (by omega) hp
          rw [this, hiter]
          rw [List.length_append, List.length_cons, List.length_nil]
          rw [List.drop_append_of_le_length (by omega)]
          rw [List.drop_drop]
          congr 2
          omega
        · -- still filling: push appends
          have hlenm : mid.buffer.length = l.length := by
            unfold Wf at hwf; omega
          unfold push at hp
          rw [if_pos (by omega)] at hp
          cases hp
          have hnle : mid.next_write_pos ≤ mid.capacity := by omega
          have hnle1 : mid.next_write_pos + 1 ≤ mid.capacity := by omega
          unfold iterList at hiter ⊢
          simp only [if_pos hnle1]
          rw [if_pos hnle] at hiter
          rw [hiter]
          rw [List.length_append, List.length_cons, List.length_nil]
          rw [Nat.sub_eq_zero_of_le (by omega), Nat.sub_eq_zero_of_le (by omega)]
          simp

theorem element_at_index_isSome {cb : CircularBuffer α} (hwf : cb.Wf) (i : Nat) :
    ((cb.element_at_index i).isSome = true) ↔
      (cb.next_write_pos - cb.capacity ≤ i ∧ i < cb.next_write_pos) := by
  unfold element_at_index
  split
  · next hle => simp; omega
  · split
    · next h1 h2 => simp; omega
    · next h1 h2 =>
      have hcap : 1 ≤ cb.capacity := by omega
      have hmod : i % cb.capacity < cb.buffer.length := by
        unfold Wf at hwf
        rcases le_or_lt cb.capacity cb.next_write_pos with hc | hc
        · have := Nat.mod_lt i hcap
          omega
        · have hilt : i < cb.capacity := by omega
          rw [Nat.mod_eq_of_lt hilt]
          omega
      rw [List.getElem?_eq_getElem hmod]
      simp
      omega

end CircularBuffer

/-!  # Claim theorems -/

/-- C4 — Ring addressability: for a buffer of capacity `C`, after pushing the
`N = L.length` elements of any list `L` (all pushes succeeding),
`len() = min(N, C)`, `has_wrapped() = (N > C)`, and `element_at_index(i)`
returns `Some` iff `max(0, N − C) ≤ i < N` (`N − C` is the truncated
subtraction `max(0, N − C)`). -/
theorem claim_C4_ring_addressability {α : Type} (C : Nat) (L : List α)
    (cb : CircularBuffer α)
    (h : (CircularBuffer.new (α := α) C).pushList L = some cb) :
    cb.len = min L.length C
      ∧ (cb.has_wrapped = true ↔ C < L.length)
      ∧ ∀ i, ((cb.element_at_index i).isSome = true)
          ↔ (L.length - C ≤ i ∧ i < L.length) := by
  obtain ⟨hwf, hcap, hnwp⟩ := CircularBuffer.pushList_inv h (CircularBuffer.new_wf C)
  simp only [CircularBuffer.new] at hcap hnwp
  have hnwp' : cb.next_write_pos = L.length := by omega
  refine ⟨?_, ?_, ?_⟩
  · have hwf' := hwf
    unfold CircularBuffer.Wf at hwf'
    unfold CircularBuffer.len
    omega
  · unfold CircularBuffer.has_wrapped
    rw [hcap, hnwp']
    simp
  · intro i
    rw [CircularBuffer.element_at_index_isSome hwf i, hcap, hnwp']

/-- Witness for C4 at the spec's own scenario A: capacity 5, pushes 0..10. -/
theorem claim_C4_witness :
    CircularBuffer.len (⟨[10, 6, 7, 8, 9], 11, 5⟩ : CircularBuffer Nat) = min 11 5
      ∧ (((⟨[10, 6, 7, 8, 9], 11, 5⟩ : CircularBuffer Nat).element_at_index 6).isSome
            = true ↔ (11 - 5 ≤ 6 ∧ 6 < 11))
      ∧ (((⟨[10, 6, 7, 8, 9], 11, 5⟩ : CircularBuffer Nat).element_at_index 5).isSome
            = true ↔ (11 - 5 ≤ 5 ∧ 5 < 11)) := by
  have h := claim_C4_ring_addressability 5 [0, 1, 2, 3, 4, 5, 6, 7, 8, 9, 10]
    (⟨[10, 6, 7, 8, 9], 11, 5⟩ : CircularBuffer Nat) (by rfl)
  exact ⟨h.1, h.2.2 6, h.2.2 5⟩

/-- C8 — the code, evaluated at the failing input: pushing into a
zero-capacity buffer evaluates `next_write_pos % 0` and panics (`none`),
against the spec's "must not panic"; the second half of the claim (no element
is ever yielded) holds for the only reachable zero-capacity state. -/
theorem claim_C8_zero_capacity_push :
    (∀ e : Nat, (CircularBuffer.new 0).push e = none)
      ∧ (CircularBuffer.new (α := Nat) 0).iterList = []
      ∧ (CircularBuffer.new (α := Nat) 0).revIterList = []
      ∧ ∀ i, (CircularBuffer.new (α := Nat) 0).element_at_index i = none := by
  refine ⟨fun e => ?_, rfl, rfl, fun i => ?_⟩
  · simp [CircularBuffer.push, CircularBuffer.new]
  · simp [CircularBuffer.element_at_index, CircularBuffer.new]

/-- C10 — `raw_log` totality boundary: `raw_log` completes without panic iff
the hot buffer's capacity is at least 2 (capacity 0 panics inside `push`,
capacity 1 panics in `total_elements % (capacity / 2)`), while
`set_hot_buffer_depth` accepts every depth, including 0 and 1. -/
theorem claim_C10_raw_log_totality (s : TuiLogger) (r : ExtLogRecord) :
    ((s.rawLog r).isSome = true ↔ 2 ≤ s.hot_log.capacity)
      ∧ ∀ d : Nat, (setHotBufferDepth s d).inner.hot_depth = d := by
  constructor
  · cases hp : s.hot_log.push r with
    | none =>
      have hs : ((s.hot_log.push r).isSome = true) ↔ 1 ≤ s.hot_log.capacity :=
        CircularBuffer.push_isSome
      rw [hp] at hs
      simp only [Option.isSome_none, Bool.false_eq_true, false_iff, not_le] at hs
      simp [TuiLogger.rawLog, hp]
      omega
    | some ev =>
      have hcap := CircularBuffer.push_capacity hp
      have hs : ((s.hot_log.push r).isSome = true) ↔ 1 ≤ s.hot_log.capacity :=
        CircularBuffer.push_isSome
      rw [hp] at hs
      simp only [Option.isSome_some, true_iff] at hs
      have he : s.rawLog r = (if ev.capacity / 2 = 0 then none
          else some { s with hot_log := ev }) := by
        unfold TuiLogger.rawLog
        rw [hp]
        rfl
      rw [he]
      split
      · next h0 => simp; omega
      · next h0 => simp; omega
  · intro d
    rfl

/-- C5 — Filter enable/disable boundary: `enabled(target, level)` is true iff
`level <=` the effective threshold resolved by the fallback chain
hot-hashtable override → env-filter verdict → global default, for every hash
function, state, target and level. -/
theorem claim_C5_enabled_fallback_chain (hash : String → Nat) (s : TuiLogger)
    (target : String) (level : Level) :
    (s.enabled hash target level = true)
      ↔ level.toNat ≤ (effectiveThreshold hash s target).toNat := by
  unfold TuiLogger.enabled effectiveThreshold
  cases lookupHash s.hot_select.hashtable (hash target) with
  | some lf => simp [Level.leFilter]
  | none =>
    cases s.hot_select.filter with
    | some f => simp [EnvFilter.enabled, Level.leFilter]
    | none => simp [Level.leFilter]

/-- C2 — End-to-end scenario C: six single-line unfiltered events 0..5 in a
three-line viewport; bottom-follow shows `[3,4,5]`, `PrevPageKey` shows
`[2,3,4]`, `PrevPageKey` again shows `[1,2,3]`, `NextPageKey` shows
`[2,3,4]`. -/
theorem claim_C2_scenario_C :
    scenarioC = some [[3, 4, 5], [2, 3, 4], [1, 2, 3], [2, 3, 4]] := by
  decide

/-- C3 — counterexample to scroll-anchor row stability: on the scenario-C
history with viewport height 3, the bottom-follow render places the captured
top pointer (event 3, subline 0) at relative row 0, but the centered-scroll
re-render anchored at that pointer places it at relative row 1. -/
theorem claim_C3_counterexample :
    scenarioAnchor = some (some 0, some 1) ∧ (0 : Nat) ≠ 1 := by
  decide

/-- C3 (amended) — the anchor's relative screen row is not preserved by the
centered re-render.  In the spec's own scenario (six single-line unfiltered
events, `H = 3`) the anchor `(3,0)` captured at row 0 re-renders at the
center row `3 / 2 = 1`; at history boundaries the window rebalances instead:
with two events the anchor `(0,0)` re-renders at row 0 (adjust-start pins
the window to the top of history), and with a single event at row 2 (the
short centered window is bottom-aligned by the offset). -/
theorem claim_C3_amended_center_row :
    anchorRoundTrip eventsSix = some (some 0, some (3 / 2))
      ∧ anchorRoundTrip eventsTwo = some (some 0, some 0)
      ∧ anchorRoundTrip eventsOne = some (some 0, some 2) := by
  decide

/-- C6 — counterexample: in scenario B the Info record logged after
`remove_env_filter` still reaches the cold store (three messages present),
because the per-target override cached in the hot hash table persists; the
spec's claim that it is suppressed is false on the code (and on the crate's
own `envfilter` test). -/
theorem claim_C6_counterexample :
    scenarioB.map (fun s => s.inner.events.buffer.map ExtLogRecord.msg)
      = some ["m1", "m2", "m3"] := by
  decide

/-- C6 (amended) — after removing the filter the further Info record still
appears after consolidation: the cached hot-hashtable override for the target
remains `Info` (as does the cold table seed), even though the filter is gone
and the global default is `Off`. -/
theorem claim_C6_amended_cached_override :
    scenarioB.map (fun s =>
        (s.inner.events.buffer.map ExtLogRecord.msg,
         lookupHash s.hot_select.hashtable (hash0 "envfilter"),
         s.hot_select.default,
         s.hot_select.filter.isNone,
         s.inner.targets.get "envfilter"))
      = some (["m1", "m2", "m3"], some .Info, .Off, true, some .Info) := by
  decide

/-- C9 — the code at the failing input: `B = new().set("t", Error)` has
generation 1; after `A = new()` performs `A.merge(&B)`, `A.origin_generation`
is still 0 (the merged branch assigns `self.generation = origin.generation`
instead), so `A.origin_generation ≠ B.generation` and the repeated merge
cannot take the cheap-skip path. -/
theorem claim_C9_origin_generation_not_recorded :
    ((LevelConfig.new.set "t" .Error).generation = 1)
      ∧ (LevelConfig.new.merge (LevelConfig.new.set "t" .Error)).origin_generation = 0
      ∧ (LevelConfig.new.merge (LevelConfig.new.set "t" .Error)).generation = 1
      ∧ (LevelConfig.new.merge (LevelConfig.new.set "t" .Error)).origin_generation
          ≠ (LevelConfig.new.set "t" .Error).generation := by
  decide

/-!  # Lemmas about `LevelConfig` and claim C7 -/

namespace LevelConfig

theorem updateEntry_keys (l : List (String × LevelFilter)) (t : String)
    (lf : LevelFilter) : (updateEntry l t lf).map Prod.fst = l.map Prod.fst := by
  induction l with
  | nil => rfl
  | cons p rest ih =>
    cases p with
    | mk k v =>
      unfold updateEntry
      split
      · simp
      · simp [ih]

theorem lookup_eq_none_iff (l : List (String × LevelFilter)) (t : String) :
    lookup l t = none ↔ ∀ p ∈ l, p.1 ≠ t := by
  induction l with
  | nil => simp [lookup]
  | cons p rest ih =>
    cases p with
    | mk k v =>
      unfold lookup
      split
      · next hk => simp [hk]
      · next hk => simpa [hk] using ih

theorem lookup_updateEntry_self (l : List (String × LevelFilter)) (t : String)
    (lf v : LevelFilter) (h : lookup l t = some v) :
    lookup (updateEntry l t lf) t = some lf := by
  induction l with
  | nil => simp [lookup] at h
  | cons p rest ih =>
    cases p with
    | mk k pv =>
      unfold lookup at h
      unfold updateEntry
      split
      · next hk => simp [lookup, hk]
      · next hk =>
        rw [if_neg hk] at h
        simp only [lookup, if_neg hk]
        exact ih h

theorem lookup_updateEntry_ne (l : List (String × LevelFilter)) (t t' : String)
    (lf : LevelFilter) (h : t' ≠ t) :
    lookup (updateEntry l t lf) t' = lookup l t' := by
  induction l with
  | nil => rfl
  | cons p rest ih =>
    cases p with
    | mk k pv =>
      unfold updateEntry
      split
      · next hk =>
        subst hk
        simp [lookup, Ne.symm h]
      · next hk => simp [lookup, ih]

theorem lookup_append_singleton_self (l : List (String × LevelFilter)) (t : String)
    (lf : LevelFilter) (h : lookup l t = none) :
    lookup (l ++ [(t, lf)]) t = some lf := by
  induction l with
  | nil => simp [lookup]
  | cons p rest ih =>
    cases p with
    | mk k pv =>
      unfold lookup at h ⊢
      split at h
      · cases h
      · next hk => simp only [List.cons_append, lookup, if_neg hk]; exact ih h

theorem lookup_append_singleton_ne (l : List (String × LevelFilter)) (t t' : String)
    (lf : LevelFilter) (h : t' ≠ t) :
    lookup (l ++ [(t, lf)]) t' = lookup l t' := by
  induction l with
  | nil =>
    show (if t = t' then some lf else lookup ([] : List (String × LevelFilter)) t')
        = lookup [] t'
    rw [if_neg fun hh => h hh.symm]
  | cons p rest ih =>
    cases p with
    | mk k pv =>
      by_cases hk : k = t'
      · simp [lookup, hk]
      · simp only [List.cons_append, lookup, if_neg hk]
        exact ih

theorem get_set_self (c : LevelConfig) (t : String) (lf : LevelFilter) :
    (c.set t lf).get t = some lf := by
  unfold get
  cases hl : lookup c.config t with
  | some lev =>
    simp only [set, hl]
    split_ifs with hne
    · exact lookup_updateEntry_self _ _ _ _ hl
    · simp only [Decidable.not_not] at hne
      rw [hl, hne]
  | none =>
    simp only [set, hl]
    exact lookup_append_singleton_self _ _ _ hl

theorem get_set_ne (c : LevelConfig) (t t' : String) (lf : LevelFilter)
    (h : t' ≠ t) : (c.set t lf).get t' = c.get t' := by
  unfold get
  cases hl : lookup c.config t with
  | some lev =>
    simp only [set, hl]
    split_ifs with hne
    · exact lookup_updateEntry_ne _ _ _ _ h
    · rfl
  | none =>
    simp only [set, hl]
    exact lookup_append_singleton_ne _ _ _ _ h

theorem set_origin_generation (c : LevelConfig) (t : String) (lf : LevelFilter) :
    (c.set t lf).origin_generation = c.origin_generation := by
  cases hl : lookup c.config t with
  | some lev =>
    simp only [set, hl]
    split_ifs <;> rfl
  | none => simp only [set, hl]

theorem set_keys_nodup (c : LevelConfig) (t : String) (lf : LevelFilter)
    (h : (c.config.map Prod.fst).Nodup) :
    ((c.set t lf).config.map Prod.fst).Nodup := by
  cases hl : lookup c.config t with
  | some lev =>
    simp only [set, hl]
    split_ifs
    · simpa [updateEntry_keys] using h
    · exact h
  | none =>
    have hnotin : ∀ p ∈ c.config, p.1 ≠ t := (lookup_eq_none_iff _ _).mp hl
    simp only [set, hl, List.map_append, List.map_cons, List.map_nil]
    rw [List.nodup_append]
    refine ⟨h, by simp, ?_⟩
    intro x hx
    simp only [List.mem_map] at hx
    obtain ⟨p, hp, hpx⟩ := hx
    simp only [List.mem_singleton]
    intro hxeq
    exact hnotin p hp (by rw [hpx, hxeq])

theorem mergeStep_origin_generation (c : LevelConfig) (e : String × LevelFilter) :
    (c.mergeStep e).origin_generation = c.origin_generation := by
  cases hg : c.get e.1 with
  | some lf =>
    simp only [mergeStep, hg]
    split_ifs
    · rfl
    · exact set_origin_generation _ _ _
  | none =>
    simp only [mergeStep, hg]
    exact set_origin_generation _ _ _

theorem mergeStep_keys_nodup (c : LevelConfig) (e : String × LevelFilter)
    (h : (c.config.map Prod.fst).Nodup) :
    ((c.mergeStep e).config.map Prod.fst).Nodup := by
  cases hg : c.get e.1 with
  | some lf =>
    simp only [mergeStep, hg]
    split_ifs
    · exact h
    · exact set_keys_nodup _ _ _ h
  | none =>
    simp only [mergeStep, hg]
    exact set_keys_nodup _ _ _ h

theorem mergeStep_get_ne (c : LevelConfig) (e : String × LevelFilter)
    (t : String) (h : t ≠ e.1) : (c.mergeStep e).get t = c.get t := by
  cases hg : c.get e.1 with
  | some lf =>
    simp only [mergeStep, hg]
    split_ifs
    · rfl
    · exact get_set_ne _ _ _ _ h
  | none =>
    simp only [mergeStep, hg]
    exact get_set_ne _ _ _ _ h

theorem mergeStep_get_bound (c : LevelConfig) (k : String) (v : LevelFilter) :
    ∃ w, (c.mergeStep (k, v)).get k = some w ∧ w.toNat ≤ v.toNat := by
  cases hg : c.get k with
  | some lf =>
    simp only [mergeStep, hg]
    cases hle : lf.leF v with
    | true =>
      rw [if_pos rfl]
      refine ⟨lf, hg, ?_⟩
      unfold LevelFilter.leF at hle
      simpa using hle
    | false =>
      rw [if_neg (by simp)]
      cases hd : c.default_display_level with
      | some lvl =>
        cases hgt : lvl.gtF v with
        | true =>
          refine ⟨v, ?_, le_refl _⟩
          simpa [hd, hgt] using get_set_self c k v
        | false =>
          refine ⟨lvl, ?_, ?_⟩
          · simpa [hd, hgt] using get_set_self c k lvl
          · unfold LevelFilter.gtF at hgt
            simp at hgt
            omega
      | none =>
        refine ⟨v, ?_, le_refl _⟩
        simpa [hd] using get_set_self c k v
  | none =>
    simp only [mergeStep, hg]
    cases hd : c.default_display_level with
    | some lvl =>
      cases hgt : lvl.gtF v with
      | true =>
        refine ⟨v, ?_, le_refl _⟩
        simpa [hd, hgt] using get_set_self c k v
      | false =>
        refine ⟨lvl, ?_, ?_⟩
        · simpa [hd, hgt] using get_set_self c k lvl
        · unfold LevelFilter.gtF at hgt
          simp at hgt
          omega
    | none =>
      refine ⟨v, ?_, le_refl _⟩
      simpa [hd] using get_set_self c k v

theorem mergeStep_get_preserve (c : LevelConfig) (k : String) (v va : LevelFilter)
    (hva : c.get k = some va) (hle : va.toNat ≤ v.toNat) :
    (c.mergeStep (k, v)).get k = some va := by
  simp only [mergeStep, hva]
  rw [if_pos (by unfold LevelFilter.leF; simpa using hle)]
  exact hva

theorem fold_mergeStep_get_notin (L : List (String × LevelFilter)) :
    ∀ (c : LevelConfig) (t : String), (∀ p ∈ L, p.1 ≠ t) →
      (L.foldl mergeStep c).get t = c.get t := by
  induction L with
  | nil => intro c t _; rfl
  | cons p rest ih =>
    intro c t h
    simp only [List.foldl_cons]
    rw [ih (c.mergeStep p) t (fun q hq => h q (by simp [hq]))]
    exact mergeStep_get_ne c p t (h p (by simp)).symm

theorem fold_mergeStep_origin_generation (L : List (String × LevelFilter)) :
    ∀ c : LevelConfig,
      (L.foldl mergeStep c).origin_generation = c.origin_generation := by
  induction L with
  | nil => intro c; rfl
  | cons p rest ih =>
    intro c
    simp only [List.foldl_cons]
    rw [ih, mergeStep_origin_generation]

theorem fold_mergeStep_keys_nodup (L : List (String × LevelFilter)) :
    ∀ c : LevelConfig, (c.config.map Prod.fst).Nodup →
      ((L.foldl mergeStep c).config.map Prod.fst).Nodup := by
  induction L with
  | nil => intro c h; exact h
  | cons p rest ih =>
    intro c h
    simp only [List.foldl_cons]
    exact ih _ (mergeStep_keys_nodup _ _ h)

theorem fold_mergeStep_le (L : List (String × LevelFilter)) :
    ∀ (c : LevelConfig) (t : String) (v : LevelFilter),
      (L.map Prod.fst).Nodup → lookup L t = some v →
      ∃ w, (L.foldl mergeStep c).get t = some w ∧ w.toNat ≤ v.toNat := by
  induction L with
  | nil => intro c t v _ h; simp [lookup] at h
  | cons p rest ih =>
    intro c t v hnd hl
    cases p with
    | mk k pv =>
      simp only [List.map_cons, List.nodup_cons] at hnd
      unfold lookup at hl
      simp only [List.foldl_cons]
      by_cases hk : k = t
      · subst hk
        rw [if_pos rfl] at hl
        obtain rfl : pv = v := by injection hl
        have hrest : ∀ p ∈ rest, p.1 ≠ k := by
          intro q hq hqe
          exact hnd.1 (by simpa [hqe] using List.mem_map_of_mem Prod.fst hq)
        rw [fold_mergeStep_get_notin rest _ k hrest]
        exact mergeStep_get_bound c k pv
      · rw [if_neg hk] at hl
        exact ih _ t v hnd.2 hl

theorem fold_mergeStep_preserve (L : List (String × LevelFilter)) :
    ∀ (c : LevelConfig) (t : String) (v va : LevelFilter),
      (L.map Prod.fst).Nodup → lookup L t = some v →
      c.get t = some va → va.toNat ≤ v.toNat →
      (L.foldl mergeStep c).get t = some va := by
  induction L with
  | nil => intro c t v va _ h; simp [lookup] at h
  | cons p rest ih =>
    intro c t v va hnd hl hva hle
    cases p with
    | mk k pv =>
      simp only [List.map_cons, List.nodup_cons] at hnd
      unfold lookup at hl
      simp only [List.foldl_cons]
      by_cases hk : k = t
      · subst hk
        rw [if_pos rfl] at hl
        obtain rfl : pv = v := by injection hl
        have hrest : ∀ p ∈ rest, p.1 ≠ k := by
          intro q hq hqe
          exact hnd.1 (by simpa [hqe] using List.mem_map_of_mem Prod.fst hq)
        rw [fold_mergeStep_get_notin rest _ k hrest]
        exact mergeStep_get_preserve c k pv va hva hle
      · rw [if_neg hk] at hl
        refine ih _ t v va hnd.2 hl ?_ hle
        rw [mergeStep_get_ne c (k, pv) t (by simpa using Ne.symm hk)]
        exact hva

theorem Reachable.origin_generation_eq_zero {c : LevelConfig}
    (h : c.Reachable) : c.origin_generation = 0 := by
  induction h with
  | new => rfl
  | set t lf _ ih => rw [set_origin_generation]; exact ih
  | setDefault lf _ ih => exact ih
  | merge hc ho ihc iho =>
    unfold LevelConfig.merge
    split
    · show (List.foldl mergeStep _ _).origin_generation = 0
      rw [fold_mergeStep_origin_generation]
      exact ihc
    · exact ihc

theorem Reachable.config_empty_of_gen_zero {c : LevelConfig}
    (h : c.Reachable) : c.generation = 0 → c.config = [] := by
  induction h with
  | new => intro _; rfl
  | set t lf hr ih =>
    rename_i c'
    cases hl : lookup c'.config t with
    | some lev =>
      simp only [LevelConfig.set, hl]
      split_ifs
      · intro h0; simp at h0
      · exact ih
    | none =>
      simp only [LevelConfig.set, hl]
      intro h0
      simp at h0
  | setDefault lf hr ih => exact ih
  | merge hc ho ihc iho =>
    unfold LevelConfig.merge
    split
    · next hne =>
      rw [Reachable.origin_generation_eq_zero hc] at hne
      intro h0
      simp only at h0
      exact absurd h0.symm hne
    · exact ihc

theorem Reachable.keys_nodup {c : LevelConfig} (h : c.Reachable) :
    (c.config.map Prod.fst).Nodup := by
  induction h with
  | new => simp [LevelConfig.new]
  | set t lf _ ih => exact set_keys_nodup _ _ _ ih
  | setDefault lf _ ih => exact ih
  | merge hc ho ihc iho =>
    unfold LevelConfig.merge
    split
    · show ((List.foldl mergeStep _ _).config.map Prod.fst).Nodup
      exact fold_mergeStep_keys_nodup _ _ ihc
    · exact ihc

end LevelConfig

/-- C7 — Merge monotonicity: for API-reachable tables `A`, `B` and every
target present in `B`, after `A.merge(B)` the merged table holds an entry
`≤ B`'s value (Off least), and an explicit pre-existing entry of `A` that was
already `≤ B`'s value is preserved unchanged. -/
theorem claim_C7_merge_monotonicity (a b : LevelConfig)
    (ha : a.Reachable) (hb : b.Reachable) :
    ∀ (t : String) (vb : LevelFilter), b.get t = some vb →
      (∃ va, (a.merge b).get t = some va ∧ va.toNat ≤ vb.toNat)
      ∧ (∀ va0, a.get t = some va0 → va0.toNat ≤ vb.toNat →
          (a.merge b).get t = some va0) := by
  intro t vb hget
  unfold LevelConfig.merge
  split
  · constructor
    · exact LevelConfig.fold_mergeStep_le b.config a t vb hb.keys_nodup hget
    · intro va0 h0 hle
      exact LevelConfig.fold_mergeStep_preserve b.config a t vb va0
        hb.keys_nodup hget h0 hle
  · next heq =>
    exfalso
    simp only [Decidable.not_not] at heq
    rw [ha.origin_generation_eq_zero] at heq
    have hbe := hb.config_empty_of_gen_zero heq.symm
    rw [LevelConfig.get, hbe] at hget
    simp [LevelConfig.lookup] at hget

/-- Witness for C7: `A = {x ↦ Error}` merged with `B = {x ↦ Warn}` keeps the
stricter explicit entry `Error ≤ Warn`. -/
theorem claim_C7_witness :
    (∃ va, ((LevelConfig.new.set "x" .Error).merge
          (LevelConfig.new.set "x" .Warn)).get "x" = some va
        ∧ va.toNat ≤ LevelFilter.Warn.toNat)
      ∧ ((LevelConfig.new.set "x" .Error).merge
          (LevelConfig.new.set "x" .Warn)).get "x" = some .Error := by
  have h := claim_C7_merge_monotonicity
    (LevelConfig.new.set "x" .Error) (LevelConfig.new.set "x" .Warn)
    (LevelConfig.Reachable.set _ _ LevelConfig.Reachable.new)
    (LevelConfig.Reachable.set _ _ LevelConfig.Reachable.new)
    "x" .Warn (by decide)
  exact ⟨h.1, h.2 .Error (by decide) (by decide)⟩

/-!  # Lemmas about `move_events` and claim C1 -/

theorem seedTarget_preserves (hash : String → Nat) (s : TuiLogger)
    (r : ExtLogRecord) :
    (seedTarget hash s r).inner.events = s.inner.events
      ∧ (seedTarget hash s r).hot_log = s.hot_log := by
  unfold seedTarget
  split
  · split
    · split
      · split
        · exact ⟨rfl, rfl⟩
        · exact ⟨rfl, rfl⟩
      · exact ⟨rfl, rfl⟩
    · exact ⟨rfl, rfl⟩
  · exact ⟨rfl, rfl⟩

theorem fold_processRecord_events (hash : String → Nat) :
    ∀ (L : List ExtLogRecord) (s : TuiLogger),
      s.inner.events.next_write_pos = s.inner.events.buffer.length →
      s.inner.events.buffer.length + L.length ≤ s.inner.events.capacity →
      ∃ s', List.foldlM (processRecord hash) s L = some s'
        ∧ s'.inner.events.buffer = s.inner.events.buffer ++ L
        ∧ s'.inner.events.next_write_pos
            = s.inner.events.next_write_pos + L.length
        ∧ s'.inner.events.capacity = s.inner.events.capacity := by
  intro L
  induction L with
  | nil =>
    intro s h1 h2
    exact ⟨s, rfl, by simp, by simp, rfl⟩
  | cons a L ih =>
    intro s h1 h2
    obtain ⟨hev, hhl⟩ := seedTarget_preserves hash s a
    set s1 := seedTarget hash s a with hs1
    have hlt : s1.inner.events.buffer.length < s1.inner.events.capacity := by
      rw [hev]
      simp only [List.length_cons] at h2
      omega
    have hp : s1.inner.events.push a = some ⟨s1.inner.events.buffer ++ [a],
        s1.inner.events.next_write_pos + 1, s1.inner.events.capacity⟩ := by
      unfold CircularBuffer.push
      rw [if_pos hlt]
    have hstep : processRecord hash s a = some { s1 with inner := { s1.inner with
        events := ⟨s1.inner.events.buffer ++ [a],
          s1.inner.events.next_write_pos + 1, s1.inner.events.capacity⟩ } } := by
      simp only [processRecord]
      rw [← hs1, hp]
      rfl
    set s2 : TuiLogger := { s1 with inner := { s1.inner with
        events := ⟨s1.inner.events.buffer ++ [a],
          s1.inner.events.next_write_pos + 1, s1.inner.events.capacity⟩ } } with hs2
    obtain ⟨s', hfold, hbuf, hnwp, hcap⟩ := ih s2
      (by rw [hs2, hev]; simp only [List.length_append, List.length_cons,
        List.length_nil]; omega)
      (by rw [hs2, hev]; simp only [List.length_append, List.length_cons,
        List.length_nil] at h2 ⊢; omega)
    refine ⟨s', ?_, ?_, ?_, ?_⟩
    · show (processRecord hash s a).bind (fun b => List.foldlM (processRecord hash) b L)
          = some s'
      rw [hstep]
      simpa using hfold
    · rw [hbuf, hs2, hev]
      simp
    · rw [hnwp, hs2, hev]
      simp only [List.length_cons]
      omega
    · rw [hcap, hs2, hev]

/-- C1 — Overflow accounting: for any hot depth `D ≥ 1` and `K > 0`, after
pushing `D + K` records into a fresh hot buffer of depth `D` without an
intervening move, one `move_events` leaves an (empty, large enough) cold
store holding exactly one synthesized overflow record — Warn level, message
reporting exactly `K` lost — followed by the `D` most recent pushed
records. -/
theorem claim_C1_overflow_accounting
    (hash : String → Nat) (hsel : HotSelect) (D K CC hdepth te : Nat)
    (cold_default : LevelFilter) (tgts : LevelConfig) (filt : Option EnvFilter)
    (rs : List ExtLogRecord) (hot : CircularBuffer ExtLogRecord)
    (hD : 1 ≤ D) (hK : 1 ≤ K) (hlen : rs.length = D + K) (hCC : D + 1 ≤ CC)
    (hhot : (CircularBuffer.new D).pushList rs = some hot) :
    ∃ s' oldest, (rs.drop K).head? = some oldest
      ∧ TuiLogger.moveEvents hash
          { hot_select := hsel, hot_log := hot,
            inner := { hot_depth := hdepth, events := CircularBuffer.new CC,
                       dump := none, total_events := te,
                       default := cold_default, targets := tgts,
                       filter := filt } } = some s'
      ∧ s'.inner.events.buffer
          = ExtLogRecord.overrun oldest.timestamp (D + K) D :: rs.drop K
      ∧ (ExtLogRecord.overrun oldest.timestamp (D + K) D).level = .Warn
      ∧ (ExtLogRecord.overrun oldest.timestamp (D + K) D).msg
          = "There have been " ++ toString K ++ " events lost, "
              ++ toString D ++ " recorded out of " ++ toString (D + K) := by
  obtain ⟨hwf, hcap, hnwp⟩ :=
    CircularBuffer.pushList_inv hhot (CircularBuffer.new_wf D)
  simp only [CircularBuffer.new] at hcap hnwp
  have hnwp' : hot.next_write_pos = D + K := by omega
  have hlenb : hot.buffer.length = D := by
    unfold CircularBuffer.Wf at hwf
    omega
  have hiter : hot.iterList = rs.drop K := by
    rw [CircularBuffer.pushList_iterList (by omega) hhot, hlen]
    congr 1
    omega
  have hdlen : (rs.drop K).length = D := by
    rw [List.length_drop]
    omega
  obtain ⟨oldest, rest, hcons⟩ : ∃ o r, rs.drop K = o :: r := by
    cases hd : rs.drop K with
    | nil => rw [hd] at hdlen; simp at hdlen; omega
    | cons o r => exact ⟨o, r, rfl⟩
  have htake : hot.take
      = some (rs.drop K, { hot with buffer := [], next_write_pos := 0 }) := by
    rw [CircularBuffer.take_eq_iterList hwf (by omega), hiter]
  have hmove : TuiLogger.moveEvents hash
      { hot_select := hsel, hot_log := hot,
        inner := { hot_depth := hdepth, events := CircularBuffer.new CC,
                   dump := none, total_events := te, default := cold_default,
                   targets := tgts, filter := filt } }
      = List.foldlM (processRecord hash)
          { hot_select := hsel, hot_log := CircularBuffer.new hdepth,
            inner := { hot_depth := hdepth, events := CircularBuffer.new CC,
                       dump := none, total_events := te + (D + K),
                       default := cold_default, targets := tgts,
                       filter := filt } }
          (ExtLogRecord.overrun oldest.timestamp (D + K) D :: rs.drop K) := by
    unfold TuiLogger.moveEvents
    rw [if_neg (by simp only [CircularBuffer.total_elements]; omega)]
    simp only [CircularBuffer.total_elements, CircularBuffer.len, htake,
      Option.bind_eq_bind, Option.some_bind, hnwp', hlenb]
    rw [if_pos (by omega)]
    rw [hcons]
    simp only [List.head?_cons, Option.bind_eq_bind, Option.some_bind]
  obtain ⟨s', hfold, hbuf, _, _⟩ := fold_processRecord_events hash
    (ExtLogRecord.overrun oldest.timestamp (D + K) D :: rs.drop K)
    { hot_select := hsel, hot_log := CircularBuffer.new hdepth,
      inner := { hot_depth := hdepth, events := CircularBuffer.new CC,
                 dump := none, total_events := te + (D + K),
                 default := cold_default, targets := tgts, filter := filt } }
    (by simp [CircularBuffer.new])
    (by simp only [CircularBuffer.new, List.length_nil, List.length_cons, hdlen]
        omega)
  refine ⟨s', oldest, ?_, ?_, ?_, rfl, ?_⟩
  · rw [hcons]
    rfl
  · rw [hmove]
    exact hfold
  · rw [hbuf]
    simp [CircularBuffer.new]
  · show overrunMsg (D + K) D = _
    unfold overrunMsg
    rw [show D + K - D = K from by omega]

/-- Witness for C1: hot depth 2, 3 records pushed (one lost), cold capacity
10. -/
theorem claim_C1_witness :
    ∃ s' oldest,
      (([recB 1 .Warn, recB 2 .Info, recB 3 .Info].drop 1).head? = some oldest)
      ∧ TuiLogger.moveEvents hash0
          { hot_select := ⟨none, [], .Info⟩,
            hot_log := ⟨[recB 3 .Info, recB 2 .Info], 3, 2⟩,
            inner := { hot_depth := 1000, events := CircularBuffer.new 10,
                       dump := none, total_events := 0, default := .Info,
                       targets := LevelConfig.new, filter := none } } = some s'
      ∧ s'.inner.events.buffer
          = ExtLogRecord.overrun oldest.timestamp (2 + 1) 2
              :: [recB 1 .Warn, recB 2 .Info, recB 3 .Info].drop 1
      ∧ (ExtLogRecord.overrun oldest.timestamp (2 + 1) 2).level = .Warn
      ∧ (ExtLogRecord.overrun oldest.timestamp (2 + 1) 2).msg
          = "There have been " ++ toString 1 ++ " events lost, "
              ++ toString 2 ++ " recorded out of " ++ toString (2 + 1) :=
  claim_C1_overflow_accounting hash0 ⟨none, [], .Info⟩ 2 1 10 1000 0 .Info
    LevelConfig.new none [recB 1 .Warn, recB 2 .Info, recB 3 .Info]
    ⟨[recB 3 .Info, recB 2 .Info], 3, 2⟩
    (by decide) (by decide) (by decide) (by decide) (by decide)

end TuiLog
